import Mathlib

/-!
Shallow embedding of the creusot specification-lowering core:
the why3 IR data model with its structural operations
(`src/why3/src/mlcfg.rs`), and the creusot lowering functions
(`src/creusot/src/translation/specification/lower.rs`).
Rust panics (`unimplemented!`, `unreachable!`, `panic!`) are embedded
as `Except` errors tagged with the panic site and the panic message.
-/

namespace mlcfg

/-- Rust: `pub struct QName { pub module: Vec<String>, pub name: Vec<String> }`. -/
structure QName where
  module : List String
  name : List String
deriving DecidableEq, Repr

/-- Rust: `pub enum LocalIdent { Anon(usize, Option<String>), Name(String) }`.
The Rust source derives `PartialEq, Eq, Hash` — all structurally, over
every field, including the optional hint of `Anon`. -/
inductive LocalIdent where
  | Anon (slot : Nat) (hint : Option String)
  | Name (s : String)
deriving DecidableEq, Repr

/-- Token stream fed to the hasher by the derived `Hash` impl of
`Option String`: a discriminant token, then the string's length and
character codes. -/
def optStringFeed : Option String → List Nat
  | none => [0]
  | some s => 1 :: s.length :: s.data.map Char.toNat

/-- Token stream fed to the hasher by the derived `Hash` impl of
`LocalIdent`: the variant discriminant, then each field in order.
Two values hash identically exactly when they feed the same stream. -/
def LocalIdent.hashFeed : LocalIdent → List Nat
  | .Anon slot hint => 0 :: slot :: optStringFeed hint
  | .Name s => 1 :: s.length :: s.data.map Char.toNat

/-- Signed machine-integer widths (rustc `IntTy`), used as width tags. -/
inductive IntTy where
  | I8 | I16 | I32 | I64 | Isize
deriving DecidableEq, Repr

/-- Unsigned machine-integer widths (rustc `UintTy`), used as width tags. -/
inductive UintTy where
  | U8 | U16 | U32 | U64 | Usize
deriving DecidableEq, Repr

/-- Floating-point widths (rustc `FloatTy`). -/
inductive FloatTy where
  | F32 | F64
deriving DecidableEq, Repr

/-- Rust: `pub enum Type` of the IR. Follows `src/why3/src/mlcfg.rs`;
the bounded integer and float constructors (`Int`, `Uint`, `Float`)
are Modelled from the spec: the lowering crate's copy of the IR (not
under `src/`) extends the type grammar with concrete-width signed and
unsigned integers and the two float widths (spec section 3, "IR Type"),
and `lower_type_to_why` produces them. -/
inductive Ty where
  | Bool
  | Char
  | Integer
  | Int (w : IntTy)
  | Uint (w : UintTy)
  | Float (w : FloatTy)
  | MutableBorrow (t : Ty)
  | TVar (v : String)
  | TConstructor (q : QName)
  | TApp (f : Ty) (args : List Ty)
  | Tuple (ts : List Ty)
  | TFun (a : Ty) (b : Ty)
deriving Repr

/-- Rust: `pub enum Constant`. Follows the source's shape; the width
tags are Modelled from the spec: the lowering crate's copy carries an
optional concrete-width tag on signed and unsigned constants (spec
section 3, "Constant"), as used by `lit_to_const`. -/
inductive Constant where
  | Int (i : Int) (tag : Option IntTy)
  | Uint (u : Nat) (tag : Option UintTy)
  | Other (s : String)
deriving Repr

/-- Rust: `Constant::const_true()`. -/
def Constant.const_true : Constant := Constant.Other "true"

/-- Rust: `Constant::const_false()`. -/
def Constant.const_false : Constant := Constant.Other "false"

/-- Rust mir `BinOp` as used by the lowering's operator table. -/
inductive MirBinOp where
  | Add | Sub | Mul | Div | Rem | Eq | Lt | Le | Ne | Ge | Gt
deriving DecidableEq, Repr

/-- Modelled from the spec: the lowering crate's operator type
`FullBinOp` factors conjunction and disjunction from the other binary
operators, which are carried as mir operators (spec section 4.1,
"Other binary operators"); `op_to_op` produces exactly these. -/
inductive FullBinOp where
  | And
  | Or
  | Other (op : MirBinOp)
deriving DecidableEq, Repr

/-- Rust: `pub enum UnOp { Not, Neg }` (identical in mir). -/
inductive UnOp where
  | Not | Neg
deriving DecidableEq, Repr

/-- Rust: `pub enum Pattern` of the IR. -/
inductive Pattern where
  | Wildcard
  | VarP (v : LocalIdent)
  | TupleP (ps : List Pattern)
  | ConsP (q : QName) (args : List Pattern)
deriving Repr

/-- Rust: `Pattern::mk_true()`. -/
def Pattern.mk_true : Pattern :=
  Pattern.ConsP ⟨[], ["True"]⟩ []

/-- Rust: `Pattern::mk_false()`. -/
def Pattern.mk_false : Pattern :=
  Pattern.ConsP ⟨[], ["False"]⟩ []

mutual

/-- Rust: `Pattern::binders`. -/
def Pattern.binders : Pattern → Finset LocalIdent
  | .Wildcard => ∅
  | .VarP s => {s}
  | .TupleP pats => Pattern.bindersFold ∅ pats
  | .ConsP _ args => Pattern.bindersFold ∅ args

/-- The `fold` over sub-pattern binder sets in `Pattern::binders`
(`set.extend(x)` is set union). -/
def Pattern.bindersFold (acc : Finset LocalIdent) : List Pattern → Finset LocalIdent
  | [] => acc
  | p :: ps => Pattern.bindersFold (acc ∪ p.binders) ps

end

/-- Rust: `pub enum Exp` of the IR. Follows `src/why3/src/mlcfg.rs`;
the operator payloads use `FullBinOp` / mir `UnOp` as in the lowering
crate's copy of the IR, which the structural operations never inspect. -/
inductive Exp where
  | Current (e : Exp)
  | Final (e : Exp)
  | Let (pattern : Pattern) (arg : Exp) (body : Exp)
  | Var (v : LocalIdent)
  | QVar (q : QName)
  | RecUp (record : Exp) (label : String) (val : Exp)
  | RecField (record : Exp) (label : String)
  | Tuple (es : List Exp)
  | Constructor (ctor : QName) (args : List Exp)
  | BorrowMut (e : Exp)
  | Const (c : Constant)
  | BinaryOp (op : FullBinOp) (l : Exp) (r : Exp)
  | UnaryOp (op : UnOp) (e : Exp)
  | Call (f : Exp) (args : List Exp)
  | Verbatim (s : String)
  | Abs (binder : LocalIdent) (body : Exp)
  | Match (scrut : Exp) (arms : List (Pattern × Exp))
  | Absurd
  | Impl (hyp : Exp) (conc : Exp)
  | Forall (binders : List (LocalIdent × Ty)) (body : Exp)
  | Exists (binders : List (LocalIdent × Ty)) (body : Exp)
deriving Repr

mutual

/-- Rust: `Exp::fvs`. The source's `_ => unimplemented!()` catch-all
(covering `RecUp`, `RecField`, `Tuple`, `UnaryOp`, `Abs`, `Match`,
`Absurd`, `Exists`) is embedded as `none`; every implemented case
yields `some` of the computed set. -/
def Exp.fvs : Exp → Option (Finset LocalIdent)
  | .Current e => e.fvs
  | .Final e => e.fvs
  | .Let pattern arg body => do
      let bound := pattern.binders
      pure (((← body.fvs) \ bound) ∪ (← arg.fvs))
  | .Var v => some {v}
  | .QVar _ => some ∅
  | .Constructor _ args => Exp.fvsFold (some ∅) args
  | .Const _ => some ∅
  | .BinaryOp _ l r => do pure ((← l.fvs) ∪ (← r.fvs))
  | .Call f args => Exp.fvsFold f.fvs args
  | .Impl h c => do pure ((← h.fvs) ∪ (← c.fvs))
  | .Forall bnds e => (e.fvs).map (fun s => bnds.foldl (fun acc p => acc.erase p.1) s)
  | .BorrowMut e => e.fvs
  | .Verbatim _ => some ∅
  | _ => none

/-- The `fold` accumulating unions of subterm free-variable sets in
`Exp::fvs` (`Constructor` and `Call` cases). -/
def Exp.fvsFold (acc : Option (Finset LocalIdent)) : List Exp → Option (Finset LocalIdent)
  | [] => acc
  | e :: es => Exp.fvsFold (do pure ((← acc) ∪ (← e.fvs))) es

end

/-- The substitution mapping: Rust `HashMap<LocalIdent, Exp>`, embedded
as a partial function. -/
def Subst := LocalIdent → Option Exp

/-- Removing a set of keys from a cloned mapping, as done by
`bound.drain().for_each(|k| subst.remove(&k))` at every binding form. -/
def Subst.removeKeys (m : Subst) (s : Finset LocalIdent) : Subst :=
  fun k => if k ∈ s then none else m k

/-- Removing every binder of a quantifier binder list from a cloned
mapping: `binders.iter().for_each(|k| subst.remove(&k.0))`. -/
def Subst.removeBinders (m : Subst) (bnds : List (LocalIdent × Ty)) : Subst :=
  fun k => if k ∈ bnds.map Prod.fst then none else m k

mutual

/-- Rust: `Exp::subst` (in-place in the source; embedded as the
function producing the rewritten expression). Note the source's
`Exp::Call(_, a)` arm substitutes into the arguments only, leaving the
callee untouched. -/
def Exp.subst : Exp → Subst → Exp
  | .Current e, m => .Current (e.subst m)
  | .Final e, m => .Final (e.subst m)
  | .Let pattern arg body, m =>
      let arg := arg.subst m
      let bound := pattern.binders
      .Let pattern arg (body.subst (Subst.removeKeys m bound))
  | .Var v, m =>
      match m v with
      | some e => e
      | none => .Var v
  | .RecUp record label val, m => .RecUp (record.subst m) label (val.subst m)
  | .RecField record label, m => .RecField (record.subst m) label
  | .Tuple es, m => .Tuple (Exp.substList es m)
  | .Constructor ctor args, m => .Constructor ctor (Exp.substList args m)
  | .Abs ident body, m => .Abs ident (body.subst (Subst.removeKeys m {ident}))
  | .Match scrut brs, m => .Match (scrut.subst m) (Exp.substArms brs m)
  | .BorrowMut e, m => .BorrowMut (e.subst m)
  | .UnaryOp op o, m => .UnaryOp op (o.subst m)
  | .BinaryOp op l r, m => .BinaryOp op (l.subst m) (r.subst m)
  | .Impl hyp exp, m => .Impl (hyp.subst m) (exp.subst m)
  | .Forall binders exp, m => .Forall binders (exp.subst (Subst.removeBinders m binders))
  | .Exists binders exp, m => .Exists binders (exp.subst (Subst.removeBinders m binders))
  | .Call f a, m => .Call f (Exp.substList a m)
  | .QVar q, _ => .QVar q
  | .Const c, _ => .Const c
  | .Verbatim s, _ => .Verbatim s
  | .Absurd, _ => .Absurd

/-- Element-wise substitution into an expression list (`Tuple`,
`Constructor`, `Call` arguments). -/
def Exp.substList : List Exp → Subst → List Exp
  | [], _ => []
  | e :: es, m => e.subst m :: Exp.substList es m

/-- Substitution into match arms: each arm's pattern binders are
removed from a local copy of the mapping before the arm body. -/
def Exp.substArms : List (Pattern × Exp) → Subst → List (Pattern × Exp)
  | [], _ => []
  | (pat, br) :: rest, m =>
      (pat, br.subst (Subst.removeKeys m pat.binders)) :: Exp.substArms rest m

end

end mlcfg

namespace pearlite

/-- Rust: `pearlite::term::Name`. A reference is a resolved path
(carrying an opaque id the resolver consumes) or a bare identifier.
The source's `Name::Path { id, .. }` carries further fields the
lowering never reads; only the id is modelled. -/
inductive Name where
  | Path (id : Nat)
  | Ident (s : String)
deriving DecidableEq, Repr

/-- True exactly on the qualified-path form of a name. -/
def Name.isPath : Name → Bool
  | .Path _ => true
  | .Ident _ => false

/-- Modelled from the spec: reference kinds of the specification
language; the lowering distinguishes the mutable kind (`RefKind::Mut`)
from every other kind (spec section 4.2: "any other reference kind is
transparent"), of which the shared kind is the representative. -/
inductive RefKind where
  | Mut
  | Shared
deriving DecidableEq, Repr

/-- Modelled from the spec: the kind of reference peeled by a
dereference — a reference of some `RefKind`, or an owned box (spec
section 4.1: "shared/box/etc."); the lowering matches only
`Deref(Some(DerefKind::Ref(RefKind::Mut)))` specially. -/
inductive DerefKind where
  | Ref (k : RefKind)
  | Box
deriving DecidableEq, Repr

/-- Rust: `pearlite::term::UnOp` as matched by the lowering. -/
inductive UnOp where
  | Final
  | Deref (k : Option DerefKind)
  | Neg
  | Not
deriving DecidableEq, Repr

/-- Rust: `pearlite::term::BinOp` as matched exhaustively by
`op_to_op` and the `Binary` lowering case. -/
inductive BinOp where
  | Add | Sub | Mul | Div | Eq | Ne | Le | Ge | Gt | Lt | Rem | And | Or | Impl
deriving DecidableEq, Repr

/-- Rust: `pearlite::term::Size` — integer width annotations. -/
inductive Size where
  | Eight | Sixteen | ThirtyTwo | SixtyFour | Mach | Unknown
deriving DecidableEq, Repr

/-- Rust: `pearlite::term::LitTy` — literal type annotations. -/
inductive LitTy where
  | Signed (s : Size)
  | Unsigned (s : Size)
  | Integer
  | Float
  | Double
  | Boolean
deriving DecidableEq, Repr

/-- Rust: `pearlite::term::Type`, the specification type grammar as
matched exhaustively by `lower_type_to_why`. `Var`'s payload is the
numeric slot (`tyvar.0`); `Unknown`'s payload is never read. -/
inductive Ty where
  | Path (path : Name)
  | Box (ty : Ty)
  | Reference (kind : RefKind) (ty : Ty)
  | Tuple (elems : List Ty)
  | Lit (lit : LitTy)
  | App (func : Ty) (args : List Ty)
  | Function (args : List Ty) (res : Ty)
  | Var (slot : Nat)
  | Unknown
deriving Repr

/-- Rust: `pearlite::term::Literal` as matched exhaustively by
`lit_to_const`. Float payloads are carried as raw bit patterns; the
lowering never reads them. -/
inductive Literal where
  | U8 (u : Nat)
  | U16 (u : Nat)
  | U32 (u : Nat)
  | U64 (u : Nat)
  | Usize (u : Nat)
  | Int (i : Int)
  | F32 (bits : Nat)
  | F64 (bits : Nat)
  | Bool (b : Bool)
deriving DecidableEq, Repr

/-- Rust: `pearlite::term::Pattern` as matched by
`lower_pattern_to_why`. The enumerated forms are `Var`, `TupleStruct`,
`Boolean` and `Wild`; `Struct` (field-name patterns) is Modelled from
the spec: the non-enumerated form falling into the source's
`_ => unimplemented!()` arm (spec section 4.1, "Pattern lowering":
"e.g. field-name patterns"), present in the source as a commented-out
case. -/
inductive Pattern where
  | Var (x : String)
  | TupleStruct (path : Name) (fields : List Pattern)
  | Boolean (b : Bool)
  | Wild
  | Struct (path : Name) (fields : List (String × Pattern))
deriving Repr

/-- Rust: `pearlite::term::Term`, the specification term grammar as
matched exhaustively by `lower_term_to_why`. A `MatchArm` is its
(pattern, body) pair; quantifier binders pair an identifier (`Ident`,
carried as its string) with a type. -/
inductive Term where
  | Match (expr : Term) (arms : List (Pattern × Term))
  | Binary (left : Term) (op : BinOp) (right : Term)
  | Unary (op : UnOp) (expr : Term)
  | Variable (path : Name)
  | Call (func : Name) (args : List Term)
  | Lit (lit : Literal)
  | Forall (args : List (String × Ty)) (body : Term)
  | Exists (args : List (String × Ty)) (body : Term)
  | Let (pat : Pattern) (arg : Term) (body : Term)
  | Absurd
  | Cast (expr : Term) (ty : Ty)
  | Tuple (elems : List Term)
  | If (cond : Term) (then_branch : Term) (else_branch : Term)
deriving Repr

end pearlite

namespace lower

open mlcfg pearlite

/-- The definition kinds the resolver can report for a path (rustc
`DefKind`), restricted to the cases `is_constructor` distinguishes:
the three constructor kinds and representative non-constructor kinds. -/
inductive DefKind where
  | Ctor
  | Variant
  | Struct
  | Fn
  | OtherDef
deriving DecidableEq, Repr

/-- Modelled from the spec: the Symbol Resolver collaborator (spec
section 6) — a read-only oracle giving each path id its definition
kind (`tcx.def_kind`), its qualified value name (`translate_value_id`)
and its qualified type name (`translate_ty_name`); both name queries
are treated as total. -/
structure Ctx where
  def_kind : Nat → DefKind
  value_name : Nat → QName
  ty_name : Nat → QName

/-- The panic sites of the lowering source, one tag per `panic!`,
`unreachable!`, `unimplemented!` or `.unwrap()` occurrence. -/
inductive PanicSite where
  | derefNone
  | litTySigned
  | litTyUnsigned
  | typeUnknown
  | tyVarName
  | litF32
  | litF64
  | opImpl
  | patternOther
  | valuePathIdent
  | typePathIdent
deriving DecidableEq, Repr

/-- A Rust panic as observed by the caller: an `unimplemented!` report
(unsupported construct) or an invariant failure (`panic!`,
`unreachable!`, a failed `.unwrap()`), each carrying its site and the
message the macro invocation supplies, if any. -/
inductive LowerError where
  | unimplemented (site : PanicSite) (msg : Option String)
  | invariant (site : PanicSite) (msg : Option String)
deriving DecidableEq, Repr

/-- The message component of a panic report. -/
def LowerError.message : LowerError → Option String
  | .unimplemented _ m => m
  | .invariant _ m => m

/-- Rust: `lower_value_path` — panics on a bare identifier. -/
def lower_value_path (ctx : Ctx) : Name → Except LowerError QName
  | .Path id => .ok (ctx.value_name id)
  | .Ident _ =>
      .error (.invariant .valuePathIdent
        (some "cannot lower a local identifier to a qualified name"))

/-- Rust: `lower_type_path` — panics on a bare identifier. -/
def lower_type_path (ctx : Ctx) : Name → Except LowerError QName
  | .Path id => .ok (ctx.ty_name id)
  | .Ident _ =>
      .error (.invariant .typePathIdent
        (some "cannot lower a local identifier to a qualified name"))

/-- Rust: `is_constructor` — true exactly when the resolver classifies
the path's definition as `Ctor`, `Variant` or `Struct`; a bare
identifier is never a constructor. -/
def is_constructor (ctx : Ctx) : Name → Bool
  | .Ident _ => false
  | .Path id =>
      match ctx.def_kind id with
      | .Ctor => true
      | .Variant => true
      | .Struct => true
      | _ => false

/-- Rust: `('a'..).nth(n)` — the n-th character starting from `a`
under the `char` successor, which skips the surrogate-code range. -/
def charSeqFromA (n : Nat) : Option Char :=
  if 97 + n < 55296 then some (Char.ofNat (97 + n))
  else if 97 + n + 2048 ≤ 1114111 then some (Char.ofNat (97 + n + 2048))
  else none

/-- Rust: `op_to_op` — total except on `Impl`, which panics. -/
def op_to_op : BinOp → Except LowerError FullBinOp
  | .Add => .ok (.Other .Add)
  | .Sub => .ok (.Other .Sub)
  | .Mul => .ok (.Other .Mul)
  | .Div => .ok (.Other .Div)
  | .Eq => .ok (.Other .Eq)
  | .Ne => .ok (.Other .Ne)
  | .Le => .ok (.Other .Le)
  | .Ge => .ok (.Other .Ge)
  | .Gt => .ok (.Other .Gt)
  | .Lt => .ok (.Other .Lt)
  | .Rem => .ok (.Other .Rem)
  | .And => .ok .And
  | .Or => .ok .Or
  | .Impl => .error (.invariant .opImpl none)

/-- Rust: `lit_to_const` — the two float cases are `unimplemented!()`
with no message. -/
def lit_to_const : Literal → Except LowerError mlcfg.Constant
  | .U8 u => .ok (.Uint u (some .U8))
  | .U16 u => .ok (.Uint u (some .U16))
  | .U32 u => .ok (.Uint u (some .U32))
  | .U64 u => .ok (.Uint u (some .U64))
  | .Usize u => .ok (.Uint u (some .Usize))
  | .Int i => .ok (.Int i none)
  | .F32 _ => .error (.unimplemented .litF32 none)
  | .F64 _ => .error (.unimplemented .litF64 none)
  | .Bool b => .ok (.Other (if b then "true" else "false"))

mutual

/-- Rust: `lower_type_to_why`. -/
def lower_type_to_why (ctx : Ctx) : pearlite.Ty → Except LowerError mlcfg.Ty
  | .Path path => do pure (.TConstructor (← lower_type_path ctx path))
  | .Box ty => lower_type_to_why ctx ty
  | .Reference .Mut ty => do pure (.MutableBorrow (← lower_type_to_why ctx ty))
  | .Reference _ ty => lower_type_to_why ctx ty
  | .Tuple elems => do pure (.Tuple (← lowerTypeList ctx elems))
  | .Lit lit =>
      match lit with
      | .Signed .Eight => .ok (.Int .I8)
      | .Signed .Sixteen => .ok (.Int .I16)
      | .Signed .ThirtyTwo => .ok (.Int .I32)
      | .Signed .SixtyFour => .ok (.Int .I64)
      | .Signed .Mach => .ok (.Int .Isize)
      | .Signed .Unknown => .error (.unimplemented .litTySigned (some "integers"))
      | .Unsigned .Eight => .ok (.Uint .U8)
      | .Unsigned .Sixteen => .ok (.Uint .U16)
      | .Unsigned .ThirtyTwo => .ok (.Uint .U32)
      | .Unsigned .SixtyFour => .ok (.Uint .U64)
      | .Unsigned .Mach => .ok (.Uint .Usize)
      | .Unsigned .Unknown => .error (.unimplemented .litTyUnsigned (some "uintegers"))
      | .Integer => .ok .Integer
      | .Float => .ok (.Float .F32)
      | .Double => .ok (.Float .F64)
      | .Boolean => .ok .Bool
  | .App func args => do
      let f ← lower_type_to_why ctx func
      pure (.TApp f (← lowerTypeList ctx args))
  | .Function args res => do
      let r ← lower_type_to_why ctx res
      lowerFunArgs ctx args r
  | .Var slot =>
      match charSeqFromA slot with
      | some c => .ok (.TVar (String.mk [c]))
      | none => .error (.invariant .tyVarName none)
  | .Unknown => .error (.invariant .typeUnknown none)

/-- Element-wise type lowering of a type list. -/
def lowerTypeList (ctx : Ctx) : List pearlite.Ty → Except LowerError (List mlcfg.Ty)
  | [] => .ok []
  | t :: ts => do
      let t' ← lower_type_to_why ctx t
      pure (t' :: (← lowerTypeList ctx ts))

/-- The `rfold` of the `Function` case: arguments are folded from the
right onto the lowered result, each wrapping the accumulator in a
single-argument `TFun`; the rightmost argument is lowered first. -/
def lowerFunArgs (ctx : Ctx) : List pearlite.Ty → mlcfg.Ty → Except LowerError mlcfg.Ty
  | [], acc => .ok acc
  | a :: rest, acc => do
      let inner ← lowerFunArgs ctx rest acc
      let a' ← lower_type_to_why ctx a
      pure (.TFun a' inner)

end

mutual

/-- Rust: `lower_pattern_to_why`. The non-enumerated `Struct` form
falls into the source's `_ => unimplemented!()` arm. -/
def lower_pattern_to_why (ctx : Ctx) : pearlite.Pattern → Except LowerError mlcfg.Pattern
  | .Var x => .ok (.VarP (.Name x))
  | .TupleStruct path fields => do
      let name ← lower_value_path ctx path
      pure (.ConsP name (← lowerPatternList ctx fields))
  | .Boolean b => .ok (if b then .mk_true else .mk_false)
  | .Wild => .ok .Wildcard
  | .Struct _ _ => .error (.unimplemented .patternOther none)

/-- Element-wise pattern lowering of sub-pattern lists. -/
def lowerPatternList (ctx : Ctx) : List pearlite.Pattern → Except LowerError (List mlcfg.Pattern)
  | [] => .ok []
  | p :: ps => do
      let p' ← lower_pattern_to_why ctx p
      pure (p' :: (← lowerPatternList ctx ps))

end

mutual

/-- Rust: `lower_term_to_why`. -/
def lower_term_to_why (ctx : Ctx) : Term → Except LowerError Exp
  | .Match expr arms => do
      let e ← lower_term_to_why ctx expr
      pure (.Match e (← lowerArms ctx arms))
  | .Binary left .Impl right => do
      let l ← lower_term_to_why ctx left
      pure (.Impl l (← lower_term_to_why ctx right))
  | .Binary left op right => do
      let o ← op_to_op op
      let l ← lower_term_to_why ctx left
      pure (.BinaryOp o l (← lower_term_to_why ctx right))
  | .Unary op expr => do
      let e ← lower_term_to_why ctx expr
      match op with
      | .Final => pure (.Final e)
      | .Deref (some (.Ref .Mut)) => pure (.Current e)
      | .Deref (some _) => pure e
      | .Deref none => .error (.invariant .derefNone none)
      | .Neg => pure (.UnaryOp .Neg e)
      | .Not => pure (.UnaryOp .Not e)
  | .Variable path =>
      match path with
      | .Path id => do pure (.QVar (← lower_value_path ctx (.Path id)))
      | .Ident i => .ok (.Var (.Name i))
  | .Call func args => do
      let is_c := is_constructor ctx func
      let name ← lower_value_path ctx func
      let largs ← lowerTermList ctx args
      if is_c then
        pure (.Constructor name largs)
      else
        pure (.Call (.QVar name) largs)
  | .Lit lit => do pure (.Const (← lit_to_const lit))
  | .Forall args body => do
      let bs ← lowerBinders ctx args
      pure (.Forall bs (← lower_term_to_why ctx body))
  | .Exists args body => do
      let bs ← lowerBinders ctx args
      pure (.Exists bs (← lower_term_to_why ctx body))
  | .Let pat arg body => do
      let p ← lower_pattern_to_why ctx pat
      let a ← lower_term_to_why ctx arg
      pure (.Let p a (← lower_term_to_why ctx body))
  | .Absurd => .ok .Absurd
  | .Cast expr _ => lower_term_to_why ctx expr
  | .Tuple elems => do pure (.Tuple (← lowerTermList ctx elems))
  | .If cond then_branch else_branch => do
      let c ← lower_term_to_why ctx cond
      let t ← lower_term_to_why ctx then_branch
      let e ← lower_term_to_why ctx else_branch
      pure (.Match c [(Pattern.mk_true, t), (Pattern.mk_false, e)])

/-- Element-wise term lowering of argument and element lists. -/
def lowerTermList (ctx : Ctx) : List Term → Except LowerError (List Exp)
  | [] => .ok []
  | t :: ts => do
      let t' ← lower_term_to_why ctx t
      pure (t' :: (← lowerTermList ctx ts))

/-- Rust: `lower_arm_to_why` mapped over a match's arm list. -/
def lowerArms (ctx : Ctx) : List (pearlite.Pattern × Term) → Except LowerError (List (mlcfg.Pattern × Exp))
  | [] => .ok []
  | (pat, body) :: rest => do
      let p ← lower_pattern_to_why ctx pat
      let b ← lower_term_to_why ctx body
      pure ((p, b) :: (← lowerArms ctx rest))

/-- The binder-list mapping of the `Forall`/`Exists` cases: each
binder's identifier becomes a named local and its type is lowered. -/
def lowerBinders (ctx : Ctx) : List (String × pearlite.Ty) → Except LowerError (List (LocalIdent × mlcfg.Ty))
  | [] => .ok []
  | (i, t) :: rest => do
      let t' ← lower_type_to_why ctx t
      pure ((.Name i, t') :: (← lowerBinders ctx rest))

end

end lower

open mlcfg pearlite lower

/-- A concrete resolver context used to instantiate universally
quantified statements: every path resolves to kind `Fn`, value name
`f` and type name `t`. -/
def ctx0 : Ctx := ⟨fun _ => .Fn, fun _ => ⟨[], ["f"]⟩, fun _ => ⟨[], ["t"]⟩⟩

/-- A resolver context classifying every path as an enum variant. -/
def ctxVariant : Ctx := ⟨fun _ => .Variant, fun _ => ⟨[], ["C"]⟩, fun _ => ⟨[], ["t"]⟩⟩

/-- The specification types on which `lower_type_to_why` has a defined
(non-panicking) case: no unresolved-width integer literal type, no
placeholder type, every type path qualified, and every type-variable
slot within the character sequence. -/
inductive SupportedTy : pearlite.Ty → Prop
  | path (p : Name) (h : p.isPath = true) : SupportedTy (.Path p)
  | box {t : pearlite.Ty} : SupportedTy t → SupportedTy (.Box t)
  | ref (k : RefKind) {t : pearlite.Ty} : SupportedTy t → SupportedTy (.Reference k t)
  | tuple {ts : List pearlite.Ty} : (∀ t ∈ ts, SupportedTy t) → SupportedTy (.Tuple ts)
  | lit (l : LitTy) (h1 : l ≠ .Signed .Unknown) (h2 : l ≠ .Unsigned .Unknown) :
      SupportedTy (.Lit l)
  | app {f : pearlite.Ty} {args : List pearlite.Ty} :
      SupportedTy f → (∀ t ∈ args, SupportedTy t) → SupportedTy (.App f args)
  | func {args : List pearlite.Ty} {res : pearlite.Ty} :
      (∀ t ∈ args, SupportedTy t) → SupportedTy res → SupportedTy (.Function args res)
  | tvar (n : Nat) (h : (charSeqFromA n).isSome = true) : SupportedTy (.Var n)

/-- The specification patterns in the enumerated list of
`lower_pattern_to_why` (variable, tuple-struct with a qualified path,
boolean literal, wildcard), recursively. -/
inductive SupportedPattern : pearlite.Pattern → Prop
  | var (x : String) : SupportedPattern (.Var x)
  | tupleStruct {p : Name} {fields : List pearlite.Pattern} (h : p.isPath = true) :
      (∀ q ∈ fields, SupportedPattern q) → SupportedPattern (.TupleStruct p fields)
  | boolean (b : Bool) : SupportedPattern (.Boolean b)
  | wild : SupportedPattern .Wild

/-- The specification terms in the supported grammar of
`lower_term_to_why`: no floating-point literal, every pattern in the
enumerated list, every dereference with a known reference kind, every
call's callee a qualified path, and every quantifier binder type
supported. -/
inductive SupportedTerm : Term → Prop
  | match_ {e : Term} {arms : List (pearlite.Pattern × Term)} :
      SupportedTerm e → (∀ a ∈ arms, SupportedPattern a.1) →
      (∀ a ∈ arms, SupportedTerm a.2) → SupportedTerm (.Match e arms)
  | binary {l r : Term} (op : BinOp) :
      SupportedTerm l → SupportedTerm r → SupportedTerm (.Binary l op r)
  | unary {e : Term} (op : pearlite.UnOp) (h : op ≠ .Deref none) :
      SupportedTerm e → SupportedTerm (.Unary op e)
  | varRef (p : Name) : SupportedTerm (.Variable p)
  | call {f : Name} {args : List Term} (h : f.isPath = true) :
      (∀ t ∈ args, SupportedTerm t) → SupportedTerm (.Call f args)
  | lit (l : Literal) (h32 : ∀ b, l ≠ .F32 b) (h64 : ∀ b, l ≠ .F64 b) :
      SupportedTerm (.Lit l)
  | forall_ {args : List (String × pearlite.Ty)} {body : Term} :
      (∀ a ∈ args, SupportedTy a.2) → SupportedTerm body → SupportedTerm (.Forall args body)
  | exists_ {args : List (String × pearlite.Ty)} {body : Term} :
      (∀ a ∈ args, SupportedTy a.2) → SupportedTerm body → SupportedTerm (.Exists args body)
  | let_ {pat : pearlite.Pattern} {a b : Term} :
      SupportedPattern pat → SupportedTerm a → SupportedTerm b → SupportedTerm (.Let pat a b)
  | absurd : SupportedTerm .Absurd
  | cast {e : Term} (ty : pearlite.Ty) : SupportedTerm e → SupportedTerm (.Cast e ty)
  | tuple {es : List Term} : (∀ t ∈ es, SupportedTerm t) → SupportedTerm (.Tuple es)
  | ite {c t e : Term} :
      SupportedTerm c → SupportedTerm t → SupportedTerm e → SupportedTerm (.If c t e)

/-! ### Helper lemmas -/

theorem char_toNat_inj {a b : Char} (h : a.toNat = b.toNat) : a = b :=
  Char.eq_of_val_eq (UInt32.ext h)

theorem string_data_inj {s t : String} (h : s.data = t.data) : s = t := by
  cases s; cases t; simp_all

theorem optStringFeed_inj {h1 h2 : Option String}
    (h : optStringFeed h1 = optStringFeed h2) : h1 = h2 := by
  cases h1 with
  | none => cases h2 with
    | none => rfl
    | some s => simp [optStringFeed] at h
  | some s => cases h2 with
    | none => simp [optStringFeed] at h
    | some t =>
      simp only [optStringFeed, List.cons.injEq] at h
      obtain ⟨-, -, hmap⟩ := h
      have : s.data = t.data := by
        have hinj : Function.Injective Char.toNat := fun _ _ hc => char_toNat_inj hc
        exact List.map_injective_iff.mpr hinj hmap
      exact congrArg some (string_data_inj this)

@[simp] theorem except_ok_bind {ε α β : Type} (a : α) (f : α → Except ε β) :
    (Except.ok a : Except ε α) >>= f = f a := rfl

@[simp] theorem except_error_bind {ε α β : Type} (e : ε) (f : α → Except ε β) :
    (Except.error e : Except ε α) >>= f = .error e := rfl

@[simp] theorem except_pure_eq_ok {ε α : Type} (a : α) :
    (pure a : Except ε α) = .ok a := rfl

/-! ### Claim C1 — free-variable computation -/

/-- Claim C1 (counterexample): the claim states the free-variable
computation is defined for every IR expression and that one-argument
abstraction removes its binder; but `Exp::fvs` reaches the source's
`_ => unimplemented!()` arm on an abstraction, so it is undefined
there (and likewise on match and existential quantification). -/
theorem c1_fvs_counterexample :
    Exp.fvs (Exp.Abs (.Name "x") (Exp.Var (.Name "x"))) = none := by
  simp [Exp.fvs]

/-- Claim C1 (amended): on the cases `Exp::fvs` implements, it is
exact — a let removes exactly its pattern's binders from its body's
free variables (its argument's free variables pass through un-shielded),
a universal quantifier removes exactly its binder list, and in
particular `fvs(Forall([(x,T)], body))` never contains `x` whenever it
is defined; qualified-variable references, constants and verbatim text
contribute no free variables; abstraction, match and existential
quantification are unimplemented and yield no result. -/
theorem c1_fvs_amended :
    (∀ pat arg body b a, Exp.fvs body = some b → Exp.fvs arg = some a →
      Exp.fvs (Exp.Let pat arg body) = some ((b \ pat.binders) ∪ a)) ∧
    (∀ bnds body s, Exp.fvs body = some s →
      Exp.fvs (Exp.Forall bnds body) =
        some (bnds.foldl (fun acc p => acc.erase p.1) s)) ∧
    (∀ x T body s, Exp.fvs (Exp.Forall [(x, T)] body) = some s → x ∉ s) ∧
    (∀ q, Exp.fvs (Exp.QVar q) = some ∅) ∧
    (∀ c, Exp.fvs (Exp.Const c) = some ∅) ∧
    (∀ s, Exp.fvs (Exp.Verbatim s) = some ∅) ∧
    (∀ x body, Exp.fvs (Exp.Abs x body) = none) ∧
    (∀ scrut arms, Exp.fvs (Exp.Match scrut arms) = none) ∧
    (∀ bnds body, Exp.fvs (Exp.Exists bnds body) = none) := by
  refine ⟨?_, ?_, ?_, ?_, ?_, ?_, ?_, ?_, ?_⟩
  · intro pat arg body b a hb ha
    simp [Exp.fvs, hb, ha]
  · intro bnds body s hs
    simp [Exp.fvs, hs]
  · intro x T body s hs
    rcases hb : Exp.fvs body with _ | s₀
    · simp [Exp.fvs, hb] at hs
    · simp [Exp.fvs, hb] at hs
      subst hs
      exact Finset.not_mem_erase x s₀
  · intro q; simp [Exp.fvs]
  · intro c; simp [Exp.fvs]
  · intro s; simp [Exp.fvs]
  · intro x body; simp [Exp.fvs]
  · intro scrut arms; simp [Exp.fvs]
  · intro bnds body; simp [Exp.fvs]

/-- Claim C1 (witness): the amended theorem applied to
`let x = y in x`, whose free variables are exactly `{y}`. -/
theorem c1_fvs_witness :
    Exp.fvs (Exp.Let (.VarP (.Name "x")) (Exp.Var (.Name "y")) (Exp.Var (.Name "x"))) =
      some ((({LocalIdent.Name "x"} : Finset LocalIdent) \
        (Pattern.VarP (.Name "x")).binders) ∪ {LocalIdent.Name "y"}) :=
  c1_fvs_amended.1 _ _ _ _ _ (by simp [Exp.fvs]) (by simp [Exp.fvs])

/-! ### Claim C2 — substitution scoping -/

/-- Claim C2 (counterexample): the claim states the mapping is
threaded unchanged into every subterm of a non-binding form; but the
source's `Exp::Call(_, a)` arm substitutes into the arguments only,
leaving the callee untouched — here the callee's occurrence of `x`
survives while the argument's occurrence is replaced. -/
theorem c2_subst_counterexample :
    Exp.subst (Exp.Call (Exp.Var (.Name "x")) [Exp.Var (.Name "x")])
      (fun k => if k = LocalIdent.Name "x" then some (Exp.Const .const_true) else none)
    = Exp.Call (Exp.Var (.Name "x")) [Exp.Const .const_true] := by
  simp [Exp.subst, Exp.substList]

/-- Claim C2 (amended): substitution removes, at each binding form
(let, abstraction, match arm, forall, exists), every identifier that
form binds from a local copy of the mapping before recursing into the
bound scope, and threads the mapping unchanged into every subterm of a
non-binding form except the callee of a function application, which is
left untouched (only the arguments are substituted); substituting into
`let x = a in b` (for pattern `x`) never replaces `b`'s occurrences of
`x` using the caller-supplied mapping, but does apply the mapping
to `a`. -/
theorem c2_subst_amended :
    (∀ pat arg body m, Exp.subst (Exp.Let pat arg body) m =
      Exp.Let pat (arg.subst m) (body.subst (Subst.removeKeys m pat.binders))) ∧
    (∀ x body m, Exp.subst (Exp.Abs x body) m =
      Exp.Abs x (body.subst (Subst.removeKeys m {x}))) ∧
    (∀ scrut pat br rest m, Exp.subst (Exp.Match scrut ((pat, br) :: rest)) m =
      Exp.Match (scrut.subst m)
        ((pat, br.subst (Subst.removeKeys m pat.binders)) :: Exp.substArms rest m)) ∧
    (∀ bnds body m, Exp.subst (Exp.Forall bnds body) m =
      Exp.Forall bnds (body.subst (Subst.removeBinders m bnds))) ∧
    (∀ bnds body m, Exp.subst (Exp.Exists bnds body) m =
      Exp.Exists bnds (body.subst (Subst.removeBinders m bnds))) ∧
    (∀ h c m, Exp.subst (Exp.Impl h c) m = Exp.Impl (h.subst m) (c.subst m)) ∧
    (∀ f args m, Exp.subst (Exp.Call f args) m = Exp.Call f (Exp.substList args m)) ∧
    (∀ x a (m : Subst) r, m x = some r → a ≠ x → m a = none →
      Exp.subst (Exp.Let (.VarP x) (Exp.Var x) (Exp.Var a)) m =
        Exp.Let (.VarP x) r (Exp.Var a) ∧
      Exp.subst (Exp.Let (.VarP x) (Exp.Var x) (Exp.Var x)) m =
        Exp.Let (.VarP x) r (Exp.Var x)) := by
  refine ⟨?_, ?_, ?_, ?_, ?_, ?_, ?_, ?_⟩
  · intro pat arg body m; simp [Exp.subst]
  · intro x body m; simp [Exp.subst]
  · intro scrut pat br rest m; simp [Exp.subst, Exp.substArms]
  · intro bnds body m; simp [Exp.subst]
  · intro bnds body m; simp [Exp.subst]
  · intro h c m; simp [Exp.subst]
  · intro f args m; simp [Exp.subst]
  · intro x a m r hmx hax hma
    constructor
    · simp [Exp.subst, Pattern.binders, Subst.removeKeys, hmx, hma]
    · simp [Exp.subst, Pattern.binders, Subst.removeKeys, hmx]

/-- Claim C2 (witness): the amended theorem applied to
`let x = x in x` under the mapping `x ↦ true`: the argument occurrence
is replaced, the body occurrence is not. -/
theorem c2_subst_witness :
    Exp.subst (Exp.Let (.VarP (.Name "x")) (Exp.Var (.Name "x")) (Exp.Var (.Name "x")))
      (fun k => if k = LocalIdent.Name "x" then some (Exp.Const .const_true) else none)
    = Exp.Let (.VarP (.Name "x")) (Exp.Const .const_true) (Exp.Var (.Name "x")) :=
  (c2_subst_amended.2.2.2.2.2.2.2 (.Name "x") (.Name "y")
    (fun k => if k = LocalIdent.Name "x" then some (Exp.Const .const_true) else none)
    (Exp.Const .const_true) (by simp) (by simp) (by simp)).2

/-! ### Claim C3 — local-identifier equality and hashing -/

/-- Claim C3 (counterexample): the claim states `Anon(n, h1)` and
`Anon(n, h2)` are equal and hash identically for any hints; but the
source derives `PartialEq, Eq, Hash` structurally over every field,
so anonymous identifiers with the same slot and different hints are
unequal and feed different data to the hasher. -/
theorem c3_localident_counterexample :
    (LocalIdent.Anon 0 (some "a") ≠ LocalIdent.Anon 0 (some "b")) ∧
    LocalIdent.hashFeed (.Anon 0 (some "a")) ≠
      LocalIdent.hashFeed (.Anon 0 (some "b")) := by
  decide

/-- Claim C3 (amended): equality and hashing of local identifiers are
structural over every field, the optional hint included: two anonymous
identifiers are equal — and feed the hasher identical data — exactly
when both the numeric slot and the hint agree. -/
theorem c3_localident_amended (n₁ n₂ : Nat) (h₁ h₂ : Option String) :
    ((LocalIdent.Anon n₁ h₁ = LocalIdent.Anon n₂ h₂) ↔ n₁ = n₂ ∧ h₁ = h₂) ∧
    (LocalIdent.hashFeed (.Anon n₁ h₁) = LocalIdent.hashFeed (.Anon n₂ h₂) ↔
      n₁ = n₂ ∧ h₁ = h₂) := by
  constructor
  · simp
  · constructor
    · intro h
      simp only [LocalIdent.hashFeed, List.cons.injEq] at h
      exact ⟨h.2.1, optStringFeed_inj h.2.2⟩
    · rintro ⟨rfl, rfl⟩; rfl

/-! ### Claim C5 — unsupported constructs fail loudly -/

/-- Claim C5 (counterexample): lowering a floating-point literal does
fail immediately, but the failure it reports is the source's bare
`unimplemented!()` — its message component is empty, so the condition
does not name the offending construct as the claim states. -/
theorem c5_unsupported_counterexample :
    lower_term_to_why ctx0 (.Lit (.F32 0)) = .error (.unimplemented .litF32 none) ∧
    (LowerError.unimplemented .litF32 none).message = none := by
  constructor
  · simp [lower_term_to_why, lit_to_const]
  · rfl

/-- Claim C5 (amended): for every unsupported construct — a
floating-point literal, an integer literal type of unresolved width,
or a pattern form outside the enumerated list — lowering fails
immediately and loudly rather than silently approximating, each at its
own distinct not-implemented panic site; only the unresolved-width
integer cases carry a message naming the construct ("integers" /
"uintegers"), while the float-literal and pattern failures carry no
message. -/
theorem c5_unsupported_amended :
    (∀ (ctx : Ctx) (bits : Nat),
      lower_term_to_why ctx (.Lit (.F32 bits)) = .error (.unimplemented .litF32 none)) ∧
    (∀ (ctx : Ctx) (bits : Nat),
      lower_term_to_why ctx (.Lit (.F64 bits)) = .error (.unimplemented .litF64 none)) ∧
    (∀ ctx : Ctx, lower_type_to_why ctx (.Lit (.Signed .Unknown)) =
      .error (.unimplemented .litTySigned (some "integers"))) ∧
    (∀ ctx : Ctx, lower_type_to_why ctx (.Lit (.Unsigned .Unknown)) =
      .error (.unimplemented .litTyUnsigned (some "uintegers"))) ∧
    (∀ (ctx : Ctx) (p : Name) (fs : List (String × pearlite.Pattern)),
      lower_pattern_to_why ctx (.Struct p fs) =
        .error (.unimplemented .patternOther none)) := by
  refine ⟨?_, ?_, ?_, ?_, ?_⟩
  · intro ctx bits; simp [lower_term_to_why, lit_to_const]
  · intro ctx bits; simp [lower_term_to_why, lit_to_const]
  · intro ctx; simp [lower_type_to_why]
  · intro ctx; simp [lower_type_to_why]
  · intro ctx p fs; simp [lower_pattern_to_why]

/-! ### Claim C6 — dereference lowering -/

/-- Claim C6: lowering `*x` yields the current-value projection
`Current(lower(x))` exactly when the peeled reference kind is mutable;
for every other known kind (shared reference, box) the projection
disappears and lowering yields exactly `lower(x)`. -/
theorem c6_deref_rule (ctx : Ctx) (x : Term) (e' : Exp) (k : DerefKind)
    (h : lower_term_to_why ctx x = .ok e') :
    lower_term_to_why ctx (.Unary (.Deref (some k)) x) =
      .ok (if k = .Ref .Mut then Exp.Current e' else e') := by
  rcases k with k | _
  · rcases k <;> simp [lower_term_to_why, h]
  · simp [lower_term_to_why, h]

/-- Claim C6 (witness): dereferencing a mutable borrow of `v` yields
the `Current` projection; dereferencing a shared borrow of `v` yields
`v` itself. -/
theorem c6_deref_witness :
    lower_term_to_why ctx0 (.Unary (.Deref (some (.Ref .Mut))) (.Variable (.Ident "v"))) =
      .ok (Exp.Current (Exp.Var (.Name "v"))) ∧
    lower_term_to_why ctx0 (.Unary (.Deref (some (.Ref .Shared))) (.Variable (.Ident "v"))) =
      .ok (Exp.Var (.Name "v")) := by
  constructor
  · have := c6_deref_rule ctx0 (.Variable (.Ident "v")) (.Var (.Name "v"))
      (.Ref .Mut) (by simp [lower_term_to_why])
    simpa using this
  · have := c6_deref_rule ctx0 (.Variable (.Ident "v")) (.Var (.Name "v"))
      (.Ref .Shared) (by simp [lower_term_to_why])
    simpa using this

/-! ### Claim C7 — constructor versus call -/

/-- Claim C7: a callee path is classified as a constructor exactly
when its resolved definition kind is a data-constructor function, an
enum variant or a plain structure; a call to a constructor-classified
path lowers to a constructor application carrying the resolved
qualified name and the element-wise-lowered arguments in order, and a
call to any other path lowers to a function application of the
qualified variable to the same lowered argument list. -/
theorem c7_ctor_vs_call (ctx : Ctx) (id : Nat) (args : List Term) (largs : List Exp)
    (h : lowerTermList ctx args = .ok largs) :
    (is_constructor ctx (.Path id) = true ↔
      ctx.def_kind id = .Ctor ∨ ctx.def_kind id = .Variant ∨ ctx.def_kind id = .Struct) ∧
    lower_term_to_why ctx (.Call (.Path id) args) =
      .ok (if is_constructor ctx (.Path id) then
            Exp.Constructor (ctx.value_name id) largs
          else Exp.Call (.QVar (ctx.value_name id)) largs) := by
  constructor
  · rcases hk : ctx.def_kind id <;> simp [is_constructor, hk]
  · by_cases hc : is_constructor ctx (.Path id) = true <;>
      simp [lower_term_to_why, lower_value_path, h, hc]

/-- Claim C7 (witness): under a resolver classifying path 0 as an enum
variant, calling it produces a constructor application; under one
classifying it as a plain function, the same call produces a function
application. -/
theorem c7_ctor_vs_call_witness :
    lower_term_to_why ctxVariant (.Call (.Path 0) [.Variable (.Ident "v")]) =
      .ok (Exp.Constructor ⟨[], ["C"]⟩ [Exp.Var (.Name "v")]) ∧
    lower_term_to_why ctx0 (.Call (.Path 0) [.Variable (.Ident "v")]) =
      .ok (Exp.Call (.QVar ⟨[], ["f"]⟩) [Exp.Var (.Name "v")]) := by
  constructor
  · have := (c7_ctor_vs_call ctxVariant 0 [.Variable (.Ident "v")]
      [.Var (.Name "v")] (by simp [lowerTermList, lower_term_to_why])).2
    simpa [ctxVariant, is_constructor] using this
  · have := (c7_ctor_vs_call ctx0 0 [.Variable (.Ident "v")]
      [.Var (.Name "v")] (by simp [lowerTermList, lower_term_to_why])).2
    simpa [ctx0, is_constructor] using this

/-! ### Claim C8 — if/then/else desugaring -/

/-- Claim C8: `if C then T else E` lowers to a match on `lower(C)`
with exactly two arms in fixed order: the true nullary-constructor
pattern paired with `lower(T)` first, the false pattern paired with
`lower(E)` second. -/
theorem c8_if_desugar (ctx : Ctx) (c t e : Term) (c' t' e' : Exp)
    (hc : lower_term_to_why ctx c = .ok c')
    (ht : lower_term_to_why ctx t = .ok t')
    (he : lower_term_to_why ctx e = .ok e') :
    lower_term_to_why ctx (.If c t e) =
      .ok (Exp.Match c' [(Pattern.mk_true, t'), (Pattern.mk_false, e')]) := by
  simp [lower_term_to_why, hc, ht, he]

/-- Claim C8 (witness): the desugaring at a concrete conditional. -/
theorem c8_if_desugar_witness :
    lower_term_to_why ctx0 (.If (.Lit (.Bool true)) (.Lit (.Int 1)) (.Lit (.Int 0))) =
      .ok (Exp.Match (Exp.Const (.Other "true"))
        [(Pattern.mk_true, Exp.Const (.Int 1 none)),
         (Pattern.mk_false, Exp.Const (.Int 0 none))]) :=
  c8_if_desugar ctx0 _ _ _ _ _ _
    (by simp [lower_term_to_why, lit_to_const])
    (by simp [lower_term_to_why, lit_to_const])
    (by simp [lower_term_to_why, lit_to_const])

/-! ### Claim C9 — function-type currying -/

theorem lowerFunArgs_foldr (ctx : Ctx) :
    ∀ (args : List pearlite.Ty) (largs : List mlcfg.Ty) (r : mlcfg.Ty),
      lowerTypeList ctx args = .ok largs →
      lowerFunArgs ctx args r = .ok (largs.foldr .TFun r) := by
  intro args
  induction args with
  | nil =>
    intro largs r h
    simp [lowerTypeList] at h
    subst h
    simp [lowerFunArgs]
  | cons a rest ih =>
    intro largs r h
    rcases ha : lower_type_to_why ctx a with e | a' <;>
      rcases hrest : lowerTypeList ctx rest with e2 | rest' <;>
      simp [lowerTypeList, ha, hrest] at h
    subst h
    simp [lowerFunArgs, ha, ih rest' r hrest]

/-- Claim C9: a function type with argument list `[A1, ..., An]` and
result `R` lowers by right-folding into n nested single-argument
curried IR function types `Fun(A1', Fun(A2', ... Fun(An', R')))`. -/
theorem c9_function_curried (ctx : Ctx) (args : List pearlite.Ty) (res : pearlite.Ty)
    (largs : List mlcfg.Ty) (r : mlcfg.Ty)
    (hres : lower_type_to_why ctx res = .ok r)
    (hargs : lowerTypeList ctx args = .ok largs) :
    lower_type_to_why ctx (.Function args res) = .ok (largs.foldr .TFun r) := by
  have h := lowerFunArgs_foldr ctx args largs r hargs
  simp [lower_type_to_why, hres, h]

/-- Claim C9 (witness): arguments `[bool, int]` with result `bool`
yield `Fun(Bool, Fun(Integer, Bool))`. -/
theorem c9_function_curried_witness :
    lower_type_to_why ctx0 (.Function [.Lit .Boolean, .Lit .Integer] (.Lit .Boolean)) =
      .ok (.TFun .Bool (.TFun .Integer .Bool)) :=
  c9_function_curried ctx0 [.Lit .Boolean, .Lit .Integer] (.Lit .Boolean)
    [.Bool, .Integer] .Bool
    (by simp [lower_type_to_why])
    (by simp [lowerTypeList, lower_type_to_why])

/-! ### Claim C10 — final-value projection -/

/-- Claim C10: applying the final-value unary operator to a term
lowers to the final-value projection of the lowered operand. -/
theorem c10_final_projection (ctx : Ctx) (x : Term) (e' : Exp)
    (h : lower_term_to_why ctx x = .ok e') :
    lower_term_to_why ctx (.Unary .Final x) = .ok (Exp.Final e') := by
  simp [lower_term_to_why, h]

/-- Claim C10 (witness): the final-value projection of a variable. -/
theorem c10_final_projection_witness :
    lower_term_to_why ctx0 (.Unary .Final (.Variable (.Ident "v"))) =
      .ok (Exp.Final (Exp.Var (.Name "v"))) :=
  c10_final_projection ctx0 (.Variable (.Ident "v")) (.Var (.Name "v"))
    (by simp [lower_term_to_why])

/-! ### Claim C4 — totality on the supported grammar -/

theorem lowerTypeList_total (ctx : Ctx) :
    ∀ ts : List pearlite.Ty, (∀ t ∈ ts, ∃ T, lower_type_to_why ctx t = .ok T) →
      ∃ Ts, lowerTypeList ctx ts = .ok Ts := by
  intro ts
  induction ts with
  | nil => intro _; exact ⟨[], by simp [lowerTypeList]⟩
  | cons a rest ih =>
    intro h
    obtain ⟨A, hA⟩ := h a (by simp)
    obtain ⟨Rs, hRs⟩ := ih (fun t ht => h t (by simp [ht]))
    exact ⟨A :: Rs, by simp [lowerTypeList, hA, hRs]⟩

theorem lowerFunArgs_total (ctx : Ctx) :
    ∀ (ts : List pearlite.Ty) (acc : mlcfg.Ty),
      (∀ t ∈ ts, ∃ T, lower_type_to_why ctx t = .ok T) →
      ∃ T, lowerFunArgs ctx ts acc = .ok T := by
  intro ts
  induction ts with
  | nil => intro acc _; exact ⟨acc, by simp [lowerFunArgs]⟩
  | cons a rest ih =>
    intro acc h
    obtain ⟨A, hA⟩ := h a (by simp)
    obtain ⟨I, hI⟩ := ih acc (fun t ht => h t (by simp [ht]))
    exact ⟨.TFun A I, by simp [lowerFunArgs, hA, hI]⟩

theorem lower_type_total (ctx : Ctx) {ty : pearlite.Ty} (h : SupportedTy ty) :
    ∃ T, lower_type_to_why ctx ty = .ok T := by
  induction h with
  | path p hp =>
    cases p with
    | Path id =>
      exact ⟨.TConstructor (ctx.ty_name id), by simp [lower_type_to_why, lower_type_path]⟩
    | Ident s => simp [Name.isPath] at hp
  | box _ ih =>
    obtain ⟨T, hT⟩ := ih
    exact ⟨T, by simp [lower_type_to_why, hT]⟩
  | ref k _ ih =>
    obtain ⟨T, hT⟩ := ih
    cases k
    · exact ⟨.MutableBorrow T, by simp [lower_type_to_why, hT]⟩
    · exact ⟨T, by simp [lower_type_to_why, hT]⟩
  | tuple _ ih =>
    obtain ⟨Ts, hTs⟩ := lowerTypeList_total ctx _ ih
    exact ⟨.Tuple Ts, by simp [lower_type_to_why, hTs]⟩
  | lit l h1 h2 =>
    rcases l with s | s | _ | _ | _ | _
    · rcases s <;> simp_all [lower_type_to_why]
    · rcases s <;> simp_all [lower_type_to_why]
    · exact ⟨.Integer, by simp [lower_type_to_why]⟩
    · exact ⟨.Float .F32, by simp [lower_type_to_why]⟩
    · exact ⟨.Float .F64, by simp [lower_type_to_why]⟩
    · exact ⟨.Bool, by simp [lower_type_to_why]⟩
  | app _ _ ihf ihargs =>
    obtain ⟨F, hF⟩ := ihf
    obtain ⟨As, hAs⟩ := lowerTypeList_total ctx _ ihargs
    exact ⟨.TApp F As, by simp [lower_type_to_why, hF, hAs]⟩
  | func _ _ ihargs ihres =>
    obtain ⟨R, hR⟩ := ihres
    obtain ⟨T, hT⟩ := lowerFunArgs_total ctx _ R ihargs
    exact ⟨T, by simp [lower_type_to_why, hR, hT]⟩
  | tvar n hn =>
    obtain ⟨c, hc⟩ := Option.isSome_iff_exists.mp hn
    exact ⟨.TVar (String.mk [c]), by simp [lower_type_to_why, hc]⟩

theorem lowerPatternList_total (ctx : Ctx) :
    ∀ ps : List pearlite.Pattern,
      (∀ p ∈ ps, ∃ P, lower_pattern_to_why ctx p = .ok P) →
      ∃ Ps, lowerPatternList ctx ps = .ok Ps := by
  intro ps
  induction ps with
  | nil => intro _; exact ⟨[], by simp [lowerPatternList]⟩
  | cons a rest ih =>
    intro h
    obtain ⟨A, hA⟩ := h a (by simp)
    obtain ⟨Rs, hRs⟩ := ih (fun p hp => h p (by simp [hp]))
    exact ⟨A :: Rs, by simp [lowerPatternList, hA, hRs]⟩

theorem lower_pattern_total (ctx : Ctx) {p : pearlite.Pattern}
    (h : SupportedPattern p) : ∃ P, lower_pattern_to_why ctx p = .ok P := by
  induction h with
  | var x => exact ⟨.VarP (.Name x), by simp [lower_pattern_to_why]⟩
  | tupleStruct hp hmem ih =>
    rename_i path fields
    cases path with
    | Path id =>
      obtain ⟨Fs, hFs⟩ := lowerPatternList_total ctx _ ih
      exact ⟨.ConsP (ctx.value_name id) Fs,
        by simp [lower_pattern_to_why, lower_value_path, hFs]⟩
    | Ident s => simp [Name.isPath] at hp
  | boolean b =>
    exact ⟨if b then Pattern.mk_true else Pattern.mk_false,
      by simp [lower_pattern_to_why]⟩
  | wild => exact ⟨.Wildcard, by simp [lower_pattern_to_why]⟩

theorem lowerTermList_total (ctx : Ctx) :
    ∀ ts : List Term, (∀ t ∈ ts, ∃ e, lower_term_to_why ctx t = .ok e) →
      ∃ es, lowerTermList ctx ts = .ok es := by
  intro ts
  induction ts with
  | nil => intro _; exact ⟨[], by simp [lowerTermList]⟩
  | cons a rest ih =>
    intro h
    obtain ⟨A, hA⟩ := h a (by simp)
    obtain ⟨Rs, hRs⟩ := ih (fun t ht => h t (by simp [ht]))
    exact ⟨A :: Rs, by simp [lowerTermList, hA, hRs]⟩

theorem lowerArms_total (ctx : Ctx) :
    ∀ arms : List (pearlite.Pattern × Term),
      (∀ a ∈ arms, ∃ P, lower_pattern_to_why ctx a.1 = .ok P) →
      (∀ a ∈ arms, ∃ e, lower_term_to_why ctx a.2 = .ok e) →
      ∃ L, lowerArms ctx arms = .ok L := by
  intro arms
  induction arms with
  | nil => intro _ _; exact ⟨[], by simp [lowerArms]⟩
  | cons a rest ih =>
    intro hp hb
    obtain ⟨P, hP⟩ := hp a (by simp)
    obtain ⟨B, hB⟩ := hb a (by simp)
    obtain ⟨Rs, hRs⟩ := ih (fun x hx => hp x (by simp [hx])) (fun x hx => hb x (by simp [hx]))
    rcases a with ⟨pat, body⟩
    exact ⟨(P, B) :: Rs, by simp [lowerArms, hP, hB, hRs]⟩

theorem lowerBinders_total (ctx : Ctx) :
    ∀ args : List (String × pearlite.Ty),
      (∀ a ∈ args, ∃ T, lower_type_to_why ctx a.2 = .ok T) →
      ∃ Bs, lowerBinders ctx args = .ok Bs := by
  intro args
  induction args with
  | nil => intro _; exact ⟨[], by simp [lowerBinders]⟩
  | cons a rest ih =>
    intro h
    obtain ⟨T, hT⟩ := h a (by simp)
    obtain ⟨Rs, hRs⟩ := ih (fun x hx => h x (by simp [hx]))
    rcases a with ⟨i, t⟩
    exact ⟨(.Name i, T) :: Rs, by simp [lowerBinders, hT, hRs]⟩

/-- Claim C4: term lowering is total on the supported grammar — for
every specification term with no floating-point literal, every pattern
in the enumerated list, every dereference of known reference kind,
every callee and type path qualified, and every quantifier binder type
supported, `lower_term_to_why` produces an IR expression and never
reaches a panic branch. -/
theorem c4_lower_term_total (ctx : Ctx) {t : Term} (h : SupportedTerm t) :
    ∃ e, lower_term_to_why ctx t = .ok e := by
  induction h with
  | match_ _ hpats _ ihe iharms =>
    obtain ⟨E, hE⟩ := ihe
    obtain ⟨L, hL⟩ := lowerArms_total ctx _
      (fun a ha => lower_pattern_total ctx (hpats a ha)) iharms
    exact ⟨.Match E L, by simp [lower_term_to_why, hE, hL]⟩
  | binary op _ _ ihl ihr =>
    obtain ⟨L, hL⟩ := ihl
    obtain ⟨R, hR⟩ := ihr
    cases op <;> simp [lower_term_to_why, op_to_op, hL, hR]
  | unary op hne _ ih =>
    obtain ⟨E, hE⟩ := ih
    rcases op with _ | k | _ | _
    · exact ⟨.Final E, by simp [lower_term_to_why, hE]⟩
    · rcases k with _ | dk
      · exact absurd rfl hne
      · rcases dk with rk | _
        · rcases rk
          · exact ⟨.Current E, by simp [lower_term_to_why, hE]⟩
          · exact ⟨E, by simp [lower_term_to_why, hE]⟩
        · exact ⟨E, by simp [lower_term_to_why, hE]⟩
    · exact ⟨.UnaryOp .Neg E, by simp [lower_term_to_why, hE]⟩
    · exact ⟨.UnaryOp .Not E, by simp [lower_term_to_why, hE]⟩
  | varRef p =>
    cases p with
    | Path id =>
      exact ⟨.QVar (ctx.value_name id), by simp [lower_term_to_why, lower_value_path]⟩
    | Ident s => exact ⟨.Var (.Name s), by simp [lower_term_to_why]⟩
  | call hp hmem ih =>
    rename_i f args
    cases f with
    | Path id =>
      obtain ⟨As, hAs⟩ := lowerTermList_total ctx _ ih
      cases his : is_constructor ctx (.Path id)
      · exact ⟨.Call (.QVar (ctx.value_name id)) As,
          by simp [lower_term_to_why, lower_value_path, hAs, his]⟩
      · exact ⟨.Constructor (ctx.value_name id) As,
          by simp [lower_term_to_why, lower_value_path, hAs, his]⟩
    | Ident s => simp [Name.isPath] at hp
  | lit l h32 h64 =>
    rcases l <;> simp_all [lower_term_to_why, lit_to_const]
  | forall_ hty _ ihbody =>
    obtain ⟨B, hB⟩ := ihbody
    obtain ⟨Bs, hBs⟩ := lowerBinders_total ctx _
      (fun a ha => lower_type_total ctx (hty a ha))
    exact ⟨.Forall Bs B, by simp [lower_term_to_why, hB, hBs]⟩
  | exists_ hty _ ihbody =>
    obtain ⟨B, hB⟩ := ihbody
    obtain ⟨Bs, hBs⟩ := lowerBinders_total ctx _
      (fun a ha => lower_type_total ctx (hty a ha))
    exact ⟨.Exists Bs B, by simp [lower_term_to_why, hB, hBs]⟩
  | let_ hpat _ _ iha ihb =>
    obtain ⟨P, hP⟩ := lower_pattern_total ctx hpat
    obtain ⟨A, hA⟩ := iha
    obtain ⟨B, hB⟩ := ihb
    exact ⟨.Let P A B, by simp [lower_term_to_why, hP, hA, hB]⟩
  | absurd => exact ⟨.Absurd, by simp [lower_term_to_why]⟩
  | cast ty _ ih =>
    obtain ⟨E, hE⟩ := ih
    exact ⟨E, by simp [lower_term_to_why, hE]⟩
  | tuple _ ih =>
    obtain ⟨Es, hEs⟩ := lowerTermList_total ctx _ ih
    exact ⟨.Tuple Es, by simp [lower_term_to_why, hEs]⟩
  | ite _ _ _ ihc iht ihe =>
    obtain ⟨C, hC⟩ := ihc
    obtain ⟨T, hT⟩ := iht
    obtain ⟨E, hE⟩ := ihe
    exact ⟨.Match C [(Pattern.mk_true, T), (Pattern.mk_false, E)],
      by simp [lower_term_to_why, hC, hT, hE]⟩

/-- Claim C4 (witness): the spec's concrete scenario
`Forall([x: u32], x >= 0)` is in the supported grammar and lowers
successfully. -/
theorem c4_lower_term_total_witness :
    ∃ e, lower_term_to_why ctx0
      (.Forall [("x", .Lit (.Unsigned .ThirtyTwo))]
        (.Binary (.Variable (.Ident "x")) .Ge (.Lit (.Int 0)))) = .ok e :=
  c4_lower_term_total ctx0
    (SupportedTerm.forall_
      (by
        intro a ha
        simp only [List.mem_singleton] at ha
        subst ha
        exact SupportedTy.lit _ (by decide) (by decide))
      (SupportedTerm.binary .Ge (SupportedTerm.varRef _)
        (SupportedTerm.lit _ (fun b => by simp) (fun b => by simp))))
